import Mathlib

/-!
Shallow embedding of the ham2mon scanner core and proofs about it.

Embedded components:
* apps/utilities.py           - frequency_to_baseband
* apps/frequency_manager.py   - ConfigFrequency, FrequencyManager
* apps/lockout_manager.py     - baseband lockout list and locked_out
* apps/frequency_provider.py  - step generation and the advance state machine
* apps/scanner.py             - raw channel estimation, the release phase of
                                scan_cycle and channel assignment
* apps/channel_loggers.py     - the fixed-field record layout

Modelling conventions: Python floats are exact rationals, Python ints are
Lean integers.  Python round and numpy round, which both round half to
even, are modelled by pyRound.  Python truthiness tests on optional
numbers (None and 0 are falsy) are modelled by pyTruthy / pyTruthyInt.
Integer division on nonnegative quantities models Python int(x / y).
-/

/-- Python round and numpy round: round half to even. -/
def pyRound (q : ℚ) : ℤ :=
  if q - ⌊q⌋ < 1/2 then ⌊q⌋
  else if 1/2 < q - ⌊q⌋ then ⌊q⌋ + 1
  else if ⌊q⌋ % 2 = 0 then ⌊q⌋ else ⌊q⌋ + 1

/-- Python truthiness of an optional float: None and 0.0 are falsy. -/
def pyTruthy : Option ℚ → Bool
  | none => false
  | some v => v ≠ 0

/-- Python truthiness of an optional int: None and 0 are falsy. -/
def pyTruthyInt : Option ℤ → Bool
  | none => false
  | some v => v ≠ 0

/-- apps/utilities.py frequency_to_baseband: freq is in MHz, center and
spacing in Hz; result is the baseband frequency in Hz rounded to the
channel spacing. -/
def frequency_to_baseband (freq : ℚ) (center_freq channel_spacing : ℤ) : ℤ :=
  pyRound ((freq * 1000000 - center_freq) / channel_spacing) * channel_spacing

/-- apps/frequency_manager.py ConfigFrequency: a configured single
frequency or frequency range (MHz) with metadata and the derived baseband
fields (Hz). -/
structure ConfigFrequency where
  label : Option String
  locked : Bool
  priority : Option ℤ
  single : Option ℚ
  lo : Option ℚ
  hi : Option ℚ
  bb_single : Option ℤ
  bb_lo : Option ℤ
  bb_hi : Option ℤ
  saved : Bool
  is_single : Bool
  deriving Repr, DecidableEq

/-- The constraints enforced by FrequencyInfo.__post_init__ and
ConfigFrequency.__post_init__ on a successfully constructed entry,
including the derived is_single flag. -/
def ConfigFrequency.validEntry (e : ConfigFrequency) : Bool :=
  (match e.priority with
   | none => true
   | some p => decide (1 ≤ p)) &&
  (e.single.isSome || e.lo.isSome || e.hi.isSome) &&
  !(e.single.isSome && (e.lo.isSome || e.hi.isSome)) &&
  (e.lo.isSome == e.hi.isSome) &&
  (match e.single with
   | none => true
   | some v => decide (0 ≤ v)) &&
  (match e.lo with
   | none => true
   | some v => decide (0 ≤ v)) &&
  (match e.lo, e.hi with
   | some l, some u => decide (l < u)
   | _, _ => true) &&
  (e.is_single == e.single.isSome)

/-- ConfigFrequency.calculate_baseband.  The source reads the rf attribute
that its is_single flag guarantees is set; the getD 0 models that
attribute access. -/
def ConfigFrequency.calculate_baseband (e : ConfigFrequency)
    (center_freq channel_spacing : ℤ) : ConfigFrequency :=
  if e.is_single then
    let bb := frequency_to_baseband (e.single.getD 0) center_freq channel_spacing
    { e with bb_single := some bb }
  else
    let blo := frequency_to_baseband (e.lo.getD 0) center_freq channel_spacing
    let bhi := frequency_to_baseband (e.hi.getD 0) center_freq channel_spacing
    { e with bb_lo := some blo, bb_hi := some bhi }

/-- ConfigFrequency.locks_out.  A Python comparison of bb against a None
bb_single is False; for ranges the source assumes bb_lo and bb_hi are set
and the getD 0 models that attribute access. -/
def ConfigFrequency.locks_out (e : ConfigFrequency) (bb : ℤ) : Bool :=
  if !e.locked then false
  else if e.is_single && (e.bb_single == some bb) then true
  else if !e.is_single && (decide (e.bb_lo.getD 0 ≤ bb) && decide (bb ≤ e.bb_hi.getD 0)) then
    true
  else false

/-- ConfigFrequency.get_priority_at. -/
def ConfigFrequency.get_priority_at (e : ConfigFrequency) (bb : ℤ) : Option ℤ :=
  match e.priority with
  | none => none
  | some p =>
    if e.is_single && (e.bb_single == some bb) then some p
    else if !e.is_single && (decide (e.bb_lo.getD 0 ≤ bb) && decide (bb ≤ e.bb_hi.getD 0)) then
      some p
    else none

/-- ConfigFrequency.__eq__.  The source tests the float attributes with
`if self.single and other.single:` - Python truthiness - and implicitly
returns None (falsy) when neither branch applies. -/
def ConfigFrequency.pyEq (a b : ConfigFrequency) : Bool :=
  if pyTruthy a.single && pyTruthy b.single then a.single == b.single
  else if pyTruthy a.lo && pyTruthy b.lo then (a.lo == b.lo) && (a.hi == b.hi)
  else false

/-- apps/frequency_manager.py FrequencyConfiguration policy flags. -/
structure FrequencyConfiguration where
  disable_lockout : Bool
  disable_priority : Bool
  deriving Repr, DecidableEq

/-- apps/frequency_manager.py FrequencyManager state. -/
structure FrequencyManager where
  channel_spacing : ℤ
  center_freq : Option ℤ
  config : FrequencyConfiguration
  frequencies : List ConfigFrequency
  deriving Repr, DecidableEq

/-- FrequencyManager.add for an already validated entry: reject when an
existing entry compares equal (ConfigFrequency.__eq__), otherwise compute
the baseband fields when a truthy center frequency is set and append. -/
def FrequencyManager.add (m : FrequencyManager) (wanted : ConfigFrequency) :
    Except String FrequencyManager :=
  if 0 < (m.frequencies.filter (fun existing => wanted.pyEq existing)).length then
    Except.error "Frequency already occurs in list"
  else
    let wanted :=
      if pyTruthyInt m.center_freq then
        wanted.calculate_baseband (m.center_freq.getD 0) m.channel_spacing
      else wanted
    Except.ok { m with frequencies := m.frequencies ++ [wanted] }

/-- FrequencyManager.set_center followed by
generate_baseband_frequencies. -/
def FrequencyManager.set_center (m : FrequencyManager) (center_freq : ℤ) :
    FrequencyManager :=
  { m with
      center_freq := some center_freq,
      frequencies := m.frequencies.map
        (fun e => e.calculate_baseband center_freq m.channel_spacing) }

/-- FrequencyManager.locked_out. -/
def FrequencyManager.locked_out (m : FrequencyManager) (bb : ℤ) : Bool :=
  if m.config.disable_lockout then false
  else m.frequencies.any (fun frequency => frequency.locks_out bb)

/-- The loop of FrequencyManager.is_priority: returns early with the
priority of the first entry whose `single` attribute is truthy, otherwise
accumulates the minimum priority seen. -/
def isPriorityLoop (bb : ℤ) : Option ℤ → List ConfigFrequency → Option ℤ
  | lowest, [] => lowest
  | lowest, frequency :: rest =>
    match frequency.get_priority_at bb with
    | none => isPriorityLoop bb lowest rest
    | some priority =>
      if pyTruthy frequency.single then some priority
      else
        match lowest with
        | none => isPriorityLoop bb (some priority) rest
        | some l =>
          if priority < l then isPriorityLoop bb (some priority) rest
          else isPriorityLoop bb lowest rest

/-- FrequencyManager.is_priority. -/
def FrequencyManager.is_priority (m : FrequencyManager) (bb : ℤ) : Option ℤ :=
  isPriorityLoop bb none m.frequencies

/-- apps/lockout_manager.py baseband lockout entries (BasebandFreq and
BasebandFreqRange). -/
inductive BBLockoutEntry where
  | freq (f : ℤ)
  | range (min max : ℤ)
  deriving Repr, DecidableEq

/-- LockoutManager.locked_out over the generated baseband lockout list. -/
def lockedOutBB (lockout_baseband : List BBLockoutEntry) (channel : ℤ) : Bool :=
  lockout_baseband.any fun l =>
    match l with
    | .freq f => channel == f
    | .range mn mx => decide (mn ≤ channel) && decide (channel ≤ mx)

/-- The centers appended by the inner loop of
FrequencyProvider._get_steps for one wide range: n centers starting at
`center`, each `distance` further on. -/
def rangeCenters (center distance : ℤ) : ℕ → List ℤ
  | 0 => []
  | n + 1 => center :: rangeCenters (center + distance) distance n

/-- FrequencyProvider._get_steps restricted to one configured range.
Ranges no wider than the sample rate get a single midpoint center; wider
ranges are split as in the source.  Integer division models Python
int(x / y) on the nonnegative quantities occurring here. -/
def stepsForRange (sample_rate lower_freq upper_freq : ℤ) : List ℤ :=
  if upper_freq - lower_freq ≤ sample_rate then
    [lower_freq + (upper_freq - lower_freq) / 2]
  else
    let start_at := lower_freq + sample_rate / 2
    let end_at := upper_freq - sample_rate / 2
    let number_of_moves := ((end_at - start_at) / sample_rate + 2).toNat
    let distance := (end_at - start_at) / ((number_of_moves : ℤ) - 1)
    rangeCenters start_at distance number_of_moves

/-- FrequencyProvider._get_steps: singles first (in order), then the
centers of each range in configured order. -/
def getSteps (singles : List ℤ) (ranges : List (ℤ × ℤ)) (sample_rate : ℤ) : List ℤ :=
  ranges.foldl (fun centers r => centers ++ stepsForRange sample_rate r.1 r.2) singles

/-- The provider state: the step list, the current index and the current
center frequency. -/
structure FrequencyProvider where
  steps : List ℤ
  step : ℕ
  center_freq : ℤ
  deriving Repr, DecidableEq

/-- FrequencyProvider.__init__: build the steps and start at step 0.  The
source indexes steps[0]; getD models that access (the list is non-empty
whenever a single or range is configured). -/
def FrequencyProvider.init (singles : List ℤ) (ranges : List (ℤ × ℤ))
    (sample_rate : ℤ) : FrequencyProvider :=
  let steps := getSteps singles ranges sample_rate
  ⟨steps, 0, steps.getD 0 0⟩

/-- The state change performed by step_if_no_activity after its sleep:
advance the index, wrapping from the last step to 0, and retune. -/
def FrequencyProvider.advance (p : FrequencyProvider) : FrequencyProvider :=
  let step := if p.step = p.steps.length - 1 then 0 else p.step + 1
  ⟨p.steps, step, p.steps.getD step 0⟩

/-- The provider representation invariant: the index is in bounds and the
published center frequency is the indexed step. -/
def providerInv (p : FrequencyProvider) : Prop :=
  p.step < p.steps.length ∧ p.center_freq = p.steps.getD p.step 0

/-- A demodulator slot as the scanner sees it (receiver.py BaseTuner):
baseband center frequency (0 when idle), last_heard and time_stamp. -/
structure Demodulator where
  center_freq : ℤ
  last_heard : ℚ
  time_stamp : ℚ
  deriving Repr, DecidableEq

/-- Scanner._get_raw_channels bin conversion: bin index to baseband Hz. -/
def rawOffset (specLen : ℕ) (samp_rate bin : ℚ) : ℚ :=
  (bin - specLen / 2) * samp_rate / specLen

/-- Scanner._get_raw_channels quantization: round the RF-relative value
to the channel spacing and return to baseband. -/
def quantizeChannel (center_freq channel_spacing : ℤ) (bb : ℚ) : ℤ :=
  pyRound ((bb + center_freq) / channel_spacing) * channel_spacing - center_freq

/-- Scanner._get_raw_channels: convert the estimator's bin indices to
quantized baseband channels and drop the idle sentinel 0.  The estimator
(module estimate, not part of apps/) only supplies the bin index list. -/
def getRawChannels (bins : List ℚ) (specLen : ℕ) (samp_rate : ℚ)
    (center_freq channel_spacing : ℤ) : List ℤ :=
  (bins.map (fun b => quantizeChannel center_freq channel_spacing
      (rawOffset specLen samp_rate b))).filter (fun bb => bb != 0)

/-- Scanner._process_current_demodulators for one slot.  the_now is the
time.time() taken at the start of the loop; now2 the later time.time()
of the max_recording check.  Returns the updated slot and whether
set_center_freq(0, center) was called on it (a release).  The source's
lockout branch continues to the next slot; the hang-time / activity
branch and the max_recording check run in sequence otherwise. -/
def processDemod (lockout_baseband : List BBLockoutEntry) (channels : List ℤ)
    (the_now now2 hang_time max_recording : ℚ) (d : Demodulator) :
    Demodulator × Bool :=
  if d.center_freq = 0 then (d, false)
  else if lockedOutBB lockout_baseband d.center_freq then
    (⟨0, d.last_heard, d.time_stamp⟩, true)
  else
    let step1 : Demodulator × Bool :=
      if d.center_freq ∈ channels then (⟨d.center_freq, the_now, d.time_stamp⟩, false)
      else if hang_time < the_now - d.last_heard then
        (⟨0, d.last_heard, d.time_stamp⟩, true)
      else (d, false)
    if 0 < max_recording ∧ max_recording ≤ now2 - step1.1.time_stamp then
      (⟨0, step1.1.last_heard, step1.1.time_stamp⟩, true)
    else step1

/-- Scanner.is_higher_priority: position in the priority_channels list,
earlier is higher; an idle slot (0) always loses; a channel missing from
the list loses to any occupied slot. -/
def scannerIsHigherPriority (priority_channels : List ℤ)
    (channel demod_freq : ℤ) : Bool :=
  if demod_freq = 0 then true
  else
    match priority_channels.findIdx? (fun x => x == channel) with
    | none => false
    | some channel_priority =>
      match priority_channels.findIdx? (fun x => x == demod_freq) with
      | none => true
      | some demod_priority => decide (channel_priority < demod_priority)

/-- The inner loop of Scanner._assign_channels_to_demodulators: tune the
first slot for which is_higher_priority holds.  Returns the updated pool
and the index of the tuned slot, if any. -/
def assignToPool (priority_channels : List ℤ) (channel : ℤ) :
    List Demodulator → List Demodulator × Option ℕ
  | [] => ([], none)
  | d :: rest =>
    if scannerIsHigherPriority priority_channels channel d.center_freq then
      (⟨channel, d.last_heard, d.time_stamp⟩ :: rest, some 0)
    else
      let r := assignToPool priority_channels channel rest
      (d :: r.1, r.2.map (fun i => i + 1))

/-- One iteration of the outer loop of
Scanner._assign_channels_to_demodulators: skip channels already being
demodulated or locked out, otherwise tune the first eligible slot and
record the set_center_freq call. -/
def assignChannel (lockout_baseband : List BBLockoutEntry)
    (priority_channels : List ℤ) (st : List Demodulator × List (ℕ × ℤ))
    (channel : ℤ) : List Demodulator × List (ℕ × ℤ) :=
  if channel ∈ st.1.map (fun d => d.center_freq) ∨
      lockedOutBB lockout_baseband channel then st
  else
    match assignToPool priority_channels channel st.1 with
    | (pool, none) => (pool, st.2)
    | (pool, some idx) => (pool, st.2 ++ [(idx, channel)])

/-- Scanner._assign_channels_to_demodulators over the whole channel
list. -/
def assignChannels (lockout_baseband : List BBLockoutEntry)
    (priority_channels : List ℤ) (st : List Demodulator × List (ℕ × ℤ))
    (channels : List ℤ) : List Demodulator × List (ℕ × ℤ) :=
  channels.foldl (assignChannel lockout_baseband priority_channels) st

/-- The release calls of the release phase: one set_center_freq(0, rf)
call per released slot, tagged with the slot index (the first slot has
index s). -/
def releaseCallsFrom (s : ℕ) : List (Demodulator × Bool) → List (ℕ × ℤ)
  | [] => []
  | p :: rest =>
    if p.2 then (s, (0 : ℤ)) :: releaseCallsFrom (s + 1) rest
    else releaseCallsFrom (s + 1) rest

/-- Scanner.scan_cycle restricted to its tuning effects: estimate the raw
channels, run the release phase, then the assignment phase.  Returns the
final pool and the (slot index, frequency) arguments of every
set_center_freq call issued; a call with frequency 0 is a release.
_add_metadata issues no tuning calls and is omitted. -/
def scanCycle (lockout_baseband : List BBLockoutEntry)
    (priority_channels : List ℤ) (bins : List ℚ) (specLen : ℕ) (samp_rate : ℚ)
    (center_freq channel_spacing : ℤ) (demodulators : List Demodulator)
    (the_now now2 hang_time max_recording : ℚ) :
    List Demodulator × List (ℕ × ℤ) :=
  let channels := getRawChannels bins specLen samp_rate center_freq channel_spacing
  let processed := demodulators.map
    (processDemod lockout_baseband channels the_now now2 hang_time max_recording)
  let releases := releaseCallsFrom 0 processed
  let assigned := assignChannels lockout_baseband priority_channels
    (processed.map (fun p => p.1), []) channels
  (assigned.1, releases ++ assigned.2)

/-- A run of n spaces. -/
def spacesStr (n : ℕ) : String := String.mk (List.replicate n ' ')

/-- Python format specification `<N`: left-justify in N columns with
space fill (no truncation when the value is wider). -/
def pyLJust (s : String) (width : ℕ) : String :=
  if width ≤ s.length then s else s ++ spacesStr (width - s.length)

/-- Python format specification `>N`: right-justify (pad on the left).
Used only to state the specification's left-padded reading. -/
def pyRJust (s : String) (width : ℕ) : String :=
  if width ≤ s.length then s else spacesStr (width - s.length) ++ s

/-- channel_loggers.py FixedField.log record: the strftime timestamp, a
colon-space separator, the state in 4 columns, the frequency in 10 and
the channel in 2 (all left-justified), newline-terminated.  The timestamp
and the str() renderings of frequency and channel are taken as given
strings. -/
def fixedFieldRecord (timestamp state freq chan : String) : String :=
  timestamp ++ ": " ++ pyLJust state 4 ++ pyLJust freq 10 ++ pyLJust chan 2 ++ "\n"

/-- Transcribed from the spec for comparison with stepsForRange: the
claimed number of centers for a wide range,
n = floor((hi - sample_rate - lo) / sample_rate) + 2. -/
def specStepCount (lower_freq upper_freq sample_rate : ℤ) : ℕ :=
  ((upper_freq - sample_rate - lower_freq) / sample_rate).toNat + 2

/-- Transcribed from the spec for comparison with stepsForRange: the
claimed step distance (hi - sample_rate - lo) / (n - 1), under integer
truncation. -/
def specStepDelta (lower_freq upper_freq sample_rate : ℤ) : ℤ :=
  (upper_freq - sample_rate - lower_freq) /
    ((specStepCount lower_freq upper_freq sample_rate : ℤ) - 1)

lemma pyRound_intCast (n : ℤ) : pyRound (n : ℚ) = n := by
  simp [pyRound]

lemma rangeCenters_length (center distance : ℤ) (n : ℕ) :
    (rangeCenters center distance n).length = n := by
  induction n generalizing center with
  | zero => rfl
  | succ n ih => simp [rangeCenters, ih]

lemma rangeCenters_getD (n : ℕ) :
    ∀ (center distance : ℤ) (k : ℕ), k < n →
      (rangeCenters center distance n).getD k 0 = center + k * distance := by
  induction n with
  | zero => intro _ _ k hk; omega
  | succ n ih =>
    intro center distance k hk
    cases k with
    | zero => simp [rangeCenters]
    | succ k =>
      have := ih (center + distance) distance k (by omega)
      simp only [rangeCenters, List.getD_cons_succ, this]
      push_cast
      ring

lemma stepsForRange_ne_nil (sample_rate lower_freq upper_freq : ℤ)
    (hsr : 0 < sample_rate) :
    stepsForRange sample_rate lower_freq upper_freq ≠ [] := by
  simp only [stepsForRange]
  split_ifs with h
  · simp
  · have hdm := Int.ediv_add_emod sample_rate 2
    have hmod := Int.emod_nonneg sample_rate (by norm_num : (2:ℤ) ≠ 0)
    have hpos : 0 < upper_freq - sample_rate / 2 - (lower_freq + sample_rate / 2) := by
      omega
    have hq : 0 ≤ (upper_freq - sample_rate / 2 - (lower_freq + sample_rate / 2)) /
        sample_rate := Int.ediv_nonneg hpos.le hsr.le
    rcases hm : ((upper_freq - sample_rate / 2 - (lower_freq + sample_rate / 2)) /
        sample_rate + 2).toNat with _ | m
    · rw [Int.toNat_eq_zero] at hm
      omega
    · simp [rangeCenters]

lemma getStepsAux_ne_nil (sample_rate : ℤ) :
    ∀ (rs : List (ℤ × ℤ)) (acc : List ℤ), acc ≠ [] →
      rs.foldl (fun centers r => centers ++ stepsForRange sample_rate r.1 r.2) acc ≠ [] := by
  intro rs
  induction rs with
  | nil => intro acc h; exact h
  | cons r rs ih =>
    intro acc h
    rw [List.foldl_cons]
    exact ih _ (List.append_ne_nil_of_left_ne_nil h _)

lemma getSteps_ne_nil (singles : List ℤ) (ranges : List (ℤ × ℤ)) (sample_rate : ℤ)
    (hsr : 0 < sample_rate) (hne : singles ≠ [] ∨ ranges ≠ []) :
    getSteps singles ranges sample_rate ≠ [] := by
  rw [getSteps]
  rcases hne with h | h
  · exact getStepsAux_ne_nil sample_rate ranges singles h
  · cases ranges with
    | nil => exact absurd rfl h
    | cons r rs =>
      rw [List.foldl_cons]
      exact getStepsAux_ne_nil sample_rate rs _
        (List.append_ne_nil_of_right_ne_nil _
          (stepsForRange_ne_nil sample_rate r.1 r.2 hsr))

lemma spacesStr_length (n : ℕ) : (spacesStr n).length = n := by
  simp [spacesStr, String.length]

lemma pyLJust_pad (s : String) (width : ℕ) (h : s.length ≤ width) :
    pyLJust s width = s ++ spacesStr (width - s.length) := by
  rw [pyLJust]
  split_ifs with hw
  · have heq : width = s.length := le_antisymm hw h
    subst heq
    simp [spacesStr]
  · rfl

lemma mem_releaseCallsFrom (l : List (Demodulator × Bool)) :
    ∀ (s idx : ℕ), (idx, (0 : ℤ)) ∈ releaseCallsFrom s l →
      ∃ k p, l.get? k = some p ∧ s + k = idx ∧ p.2 = true := by
  induction l with
  | nil => intro s idx h; simp [releaseCallsFrom] at h
  | cons p rest ih =>
    intro s idx h
    rw [releaseCallsFrom] at h
    by_cases hp : p.2 = true
    · rw [if_pos hp] at h
      rcases List.mem_cons.mp h with h | h
      · injection h with h1 h2
        exact ⟨0, p, rfl, by omega, hp⟩
      · rcases ih (s + 1) idx h with ⟨k, q, hk, hs, hq⟩
        exact ⟨k + 1, q, hk, by omega, hq⟩
    · rw [if_neg hp] at h
      rcases ih (s + 1) idx h with ⟨k, q, hk, hs, hq⟩
      exact ⟨k + 1, q, hk, by omega, hq⟩

lemma releaseCallsFrom_of_get? (l : List (Demodulator × Bool)) :
    ∀ (s k : ℕ) (p : Demodulator × Bool), l.get? k = some p → p.2 = true →
      (s + k, (0 : ℤ)) ∈ releaseCallsFrom s l := by
  induction l with
  | nil => intro s k p hk; simp at hk
  | cons q rest ih =>
    intro s k p hk hp
    cases k with
    | zero =>
      rw [List.get?_cons_zero] at hk
      injection hk with hk
      subst hk
      rw [releaseCallsFrom, if_pos hp]
      exact List.mem_cons_self _ _
    | succ k =>
      rw [List.get?_cons_succ] at hk
      have := ih (s + 1) k p hk hp
      rw [releaseCallsFrom]
      have harith : s + 1 + k = s + (k + 1) := by omega
      rw [harith] at this
      split_ifs
      · exact List.mem_cons_of_mem _ this
      · exact this

lemma assignChannel_calls_mem (lockout_baseband : List BBLockoutEntry)
    (priority_channels : List ℤ) (st : List Demodulator × List (ℕ × ℤ))
    (channel : ℤ) (p : ℕ × ℤ)
    (hp : p ∈ (assignChannel lockout_baseband priority_channels st channel).2) :
    p ∈ st.2 ∨ p.2 = channel := by
  rw [assignChannel] at hp
  split_ifs at hp
  · exact Or.inl hp
  · rcases hA : assignToPool priority_channels channel st.1 with ⟨pool, oidx⟩
    rw [hA] at hp
    cases oidx with
    | none => exact Or.inl hp
    | some i =>
      simp only at hp
      rcases List.mem_append.mp hp with h | h
      · exact Or.inl h
      · rcases List.mem_singleton.mp h with h
        exact Or.inr (by rw [h])

lemma assignChannels_calls_mem (lockout_baseband : List BBLockoutEntry)
    (priority_channels : List ℤ) :
    ∀ (channels : List ℤ) (st : List Demodulator × List (ℕ × ℤ)) (p : ℕ × ℤ),
      p ∈ (assignChannels lockout_baseband priority_channels st channels).2 →
      p ∈ st.2 ∨ p.2 ∈ channels := by
  intro channels
  induction channels with
  | nil => intro st p hp; exact Or.inl hp
  | cons c cs ih =>
    intro st p hp
    rw [assignChannels, List.foldl_cons] at hp
    rcases ih (assignChannel lockout_baseband priority_channels st c) p hp with h | h
    · rcases assignChannel_calls_mem lockout_baseband priority_channels st c p h with h | h
      · exact Or.inl h
      · exact Or.inr (by rw [h]; exact List.mem_cons_self _ _)
    · exact Or.inr (List.mem_cons_of_mem _ h)

lemma getRawChannels_not_zero (bins : List ℚ) (specLen : ℕ) (samp_rate : ℚ)
    (center_freq channel_spacing : ℤ) :
    (0 : ℤ) ∉ getRawChannels bins specLen samp_rate center_freq channel_spacing := by
  intro h
  rw [getRawChannels] at h
  have := (List.mem_filter.mp h).2
  simp at this

lemma processDemod_locked (lockout_baseband : List BBLockoutEntry)
    (channels : List ℤ) (the_now now2 hang_time max_recording : ℚ)
    (d : Demodulator) (hnz : d.center_freq ≠ 0)
    (hl : lockedOutBB lockout_baseband d.center_freq = true) :
    processDemod lockout_baseband channels the_now now2 hang_time max_recording d
      = (⟨0, d.last_heard, d.time_stamp⟩, true) := by
  rw [processDemod, if_neg hnz, if_pos hl]

lemma processDemod_active (lockout_baseband : List BBLockoutEntry)
    (channels : List ℤ) (the_now now2 hang_time max_recording : ℚ)
    (d : Demodulator) (hnz : d.center_freq ≠ 0)
    (hnl : lockedOutBB lockout_baseband d.center_freq = false)
    (hin : d.center_freq ∈ channels)
    (hmr : max_recording ≤ 0 ∨ now2 - d.time_stamp < max_recording) :
    processDemod lockout_baseband channels the_now now2 hang_time max_recording d
      = (⟨d.center_freq, the_now, d.time_stamp⟩, false) := by
  rw [processDemod, if_neg hnz, if_neg (by rw [hnl]; exact Bool.false_ne_true),
    if_pos hin]
  rw [if_neg]
  rintro ⟨h1, h2⟩
  rcases hmr with h | h
  · exact absurd (lt_of_lt_of_le h1 h) (by simp)
  · simp only at h2
    linarith

lemma locks_out_iff (e : ConfigFrequency) (bb : ℤ)
    (hwf : e.is_single = false → e.bb_lo.isSome ∧ e.bb_hi.isSome) :
    e.locks_out bb = true ↔
      e.locked = true ∧
        ((e.is_single = true ∧ e.bb_single = some bb) ∨
         (e.is_single = false ∧ ∃ l u, e.bb_lo = some l ∧ e.bb_hi = some u ∧
            l ≤ bb ∧ bb ≤ u)) := by
  rw [ConfigFrequency.locks_out]
  cases hl : e.locked with
  | false => simp [hl]
  | true =>
    cases hs : e.is_single with
    | true => simp [hl, hs]
    | false =>
      obtain ⟨hlo, hhi⟩ := hwf hs
      obtain ⟨l, hleq⟩ := Option.isSome_iff_exists.mp hlo
      obtain ⟨u, hueq⟩ := Option.isSome_iff_exists.mp hhi
      simp [hl, hs, hleq, hueq]

/-- C3: locked_out returns false whenever disable_lockout is set;
otherwise it is true exactly when some entry is locked and covers bb - a
single entry covering bb when bb equals its bb_single, a range entry when
bb_lo <= bb <= bb_hi.  The well-formedness hypothesis states that range
entries have their baseband bounds computed, as the source assumes. -/
theorem c3_locked_out (m : FrequencyManager) (bb : ℤ)
    (hwf : ∀ e ∈ m.frequencies, e.is_single = false →
      e.bb_lo.isSome ∧ e.bb_hi.isSome) :
    (m.config.disable_lockout = true → m.locked_out bb = false) ∧
    (m.config.disable_lockout = false →
      (m.locked_out bb = true ↔
        ∃ e ∈ m.frequencies, e.locked = true ∧
          ((e.is_single = true ∧ e.bb_single = some bb) ∨
           (e.is_single = false ∧ ∃ l u, e.bb_lo = some l ∧ e.bb_hi = some u ∧
              l ≤ bb ∧ bb ≤ u)))) := by
  constructor
  · intro h
    simp [FrequencyManager.locked_out, h]
  · intro h
    rw [FrequencyManager.locked_out, if_neg (by simp [h]), List.any_eq_true]
    constructor
    · rintro ⟨e, he, hloc⟩
      exact ⟨e, he, (locks_out_iff e bb (hwf e he)).mp hloc⟩
    · rintro ⟨e, he, hprop⟩
      exact ⟨e, he, (locks_out_iff e bb (hwf e he)).mpr hprop⟩

/-- A locked range entry covering baseband 0, for the C3 witness. -/
def demoLockEntry : ConfigFrequency :=
  ⟨none, true, none, none, some 0, some 1, none, some (-10), some 10, false, false⟩

/-- A registry with lockouts disabled, for the C3 witness. -/
def demoDisabledManager : FrequencyManager :=
  ⟨5000, none, ⟨true, false⟩, [demoLockEntry]⟩

/-- A registry with one locked range entry, for the C3 witness. -/
def demoLockManager : FrequencyManager :=
  ⟨5000, none, ⟨false, false⟩, [demoLockEntry]⟩

/-- C3 witness: the theorem applied to two concrete registries. -/
theorem c3_witness :
    FrequencyManager.locked_out demoDisabledManager 0 = false ∧
    FrequencyManager.locked_out demoLockManager 0 = true :=
  ⟨(c3_locked_out demoDisabledManager 0 (by decide)).1 rfl,
   ((c3_locked_out demoLockManager 0 (by decide)).2 rfl).mpr
     ⟨demoLockEntry, List.mem_singleton.mpr rfl,
      rfl, Or.inr ⟨rfl, -10, 10, rfl, rfl, by decide, by decide⟩⟩⟩

/-- C5: a non-idle slot whose center_freq is locked out at the start of
the release phase is released: the release phase sets it to 0 and
scan_cycle issues a set_center_freq(0, center) call for its index.  This
holds for every scan cycle, so it applies in particular to the first
cycle after a lockout covering the slot becomes effective. -/
theorem c5_locked_out_slot_released (lockout_baseband : List BBLockoutEntry)
    (priority_channels : List ℤ) (bins : List ℚ) (specLen : ℕ)
    (samp_rate : ℚ) (center_freq channel_spacing : ℤ)
    (demodulators : List Demodulator)
    (the_now now2 hang_time max_recording : ℚ) (idx : ℕ) (d : Demodulator)
    (hidx : demodulators.get? idx = some d) (hnz : d.center_freq ≠ 0)
    (hl : lockedOutBB lockout_baseband d.center_freq = true) :
    (processDemod lockout_baseband
        (getRawChannels bins specLen samp_rate center_freq channel_spacing)
        the_now now2 hang_time max_recording d).1.center_freq = 0 ∧
    (idx, (0 : ℤ)) ∈ (scanCycle lockout_baseband priority_channels bins specLen
        samp_rate center_freq channel_spacing demodulators the_now now2
        hang_time max_recording).2 := by
  have hpd := processDemod_locked lockout_baseband
    (getRawChannels bins specLen samp_rate center_freq channel_spacing)
    the_now now2 hang_time max_recording d hnz hl
  constructor
  · rw [hpd]
  · simp only [scanCycle]
    apply List.mem_append.mpr
    left
    have hget : (demodulators.map (processDemod lockout_baseband
        (getRawChannels bins specLen samp_rate center_freq channel_spacing)
        the_now now2 hang_time max_recording)).get? idx
        = some (processDemod lockout_baseband
            (getRawChannels bins specLen samp_rate center_freq channel_spacing)
            the_now now2 hang_time max_recording d) := by
      rw [List.get?_map, hidx]
      rfl
    have hmem := releaseCallsFrom_of_get? _ 0 idx _ hget (by rw [hpd])
    simpa using hmem

/-- A locked-out occupied slot, for the C5 witness. -/
def demoLockedSlot : Demodulator := ⟨100000, 0, 0⟩

/-- C5 witness: the theorem applied to a pool of one slot tuned to a
locked-out frequency. -/
theorem c5_witness :
    (0, (0 : ℤ)) ∈ (scanCycle [BBLockoutEntry.freq 100000] [] [] 0 1 0 5000
        [demoLockedSlot] 0 0 1 0).2 :=
  (c5_locked_out_slot_released [BBLockoutEntry.freq 100000] [] [] 0 1 0 5000
    [demoLockedSlot] 0 0 1 0 0 demoLockedSlot rfl (by decide) (by decide)).2

lemma getRawChannels_demo : getRawChannels [3] 4 800000 0 5000 = [200000] := by
  have h1 : rawOffset 4 800000 3 = 200000 := by
    rw [rawOffset]
    norm_num
  have h2 : quantizeChannel 0 5000 200000 = 200000 := by
    rw [quantizeChannel]
    have h : ((200000 : ℚ) + ((0 : ℤ) : ℚ)) / ((5000 : ℤ) : ℚ) = ((40 : ℤ) : ℚ) := by
      norm_num
    rw [h, pyRound_intCast]
    decide
  rw [getRawChannels]
  simp only [List.map, h1, h2]
  decide

/-- C1 (amended): a non-idle slot that is not locked out, whose
center_freq is among the estimated baseband channels of the cycle, and
whose recording age stays below a positive max_recording (or
max_recording is unset), is not released by scan_cycle, regardless of
hang_time.  The max_recording condition is the amendment: the source
releases even an active slot once its recording exceeds max_recording. -/
theorem c1_in_channels_slot_not_released (lockout_baseband : List BBLockoutEntry)
    (priority_channels : List ℤ) (bins : List ℚ) (specLen : ℕ)
    (samp_rate : ℚ) (center_freq channel_spacing : ℤ)
    (demodulators : List Demodulator)
    (the_now now2 hang_time max_recording : ℚ) (idx : ℕ) (d : Demodulator)
    (hidx : demodulators.get? idx = some d) (hnz : d.center_freq ≠ 0)
    (hnl : lockedOutBB lockout_baseband d.center_freq = false)
    (hin : d.center_freq ∈ getRawChannels bins specLen samp_rate center_freq
      channel_spacing)
    (hmr : max_recording ≤ 0 ∨ now2 - d.time_stamp < max_recording) :
    (idx, (0 : ℤ)) ∉ (scanCycle lockout_baseband priority_channels bins specLen
        samp_rate center_freq channel_spacing demodulators the_now now2
        hang_time max_recording).2 := by
  intro hmem
  simp only [scanCycle] at hmem
  rcases List.mem_append.mp hmem with h | h
  · rcases mem_releaseCallsFrom _ 0 idx h with ⟨k, p, hk, hsum, hflag⟩
    have hkidx : k = idx := by omega
    subst hkidx
    rw [List.get?_map, hidx, Option.map_some'] at hk
    injection hk with hk
    rw [processDemod_active lockout_baseband _ the_now now2 hang_time
      max_recording d hnz hnl hin hmr] at hk
    rw [← hk] at hflag
    exact Bool.false_ne_true hflag
  · rcases assignChannels_calls_mem _ _ _ _ _ h with h0 | h0
    · simp at h0
    · exact getRawChannels_not_zero bins specLen samp_rate center_freq
        channel_spacing h0

/-- C1 witness: the amended theorem applied to a pool of one active slot
with max_recording unset. -/
theorem c1_witness :
    (0, (0 : ℤ)) ∉ (scanCycle [] [] [3] 4 800000 0 5000
        [⟨200000, 10, 0⟩] 10 10 1 0).2 :=
  c1_in_channels_slot_not_released [] [] [3] 4 800000 0 5000
    [⟨200000, 10, 0⟩] 10 10 1 0 0 ⟨200000, 10, 0⟩ rfl (by decide) (by decide)
    (by rw [getRawChannels_demo]; exact List.mem_singleton.mpr rfl)
    (Or.inl le_rfl)

lemma processDemod_demo :
    processDemod [] [200000] 10 10 1 1 ⟨200000, 10, 0⟩ = (⟨0, 10, 0⟩, true) := by
  simp only [processDemod]
  rw [if_neg (by decide : ¬((⟨200000, 10, 0⟩ : Demodulator).center_freq = 0)),
    if_neg (by decide : ¬(lockedOutBB [] (⟨200000, 10, 0⟩ : Demodulator).center_freq = true)),
    if_pos (show (⟨200000, 10, 0⟩ : Demodulator).center_freq ∈ [200000] from
      List.mem_singleton.mpr rfl)]
  norm_num

/-- C1 counterexample: with max_recording = 1 and a slot tuned for longer
than that, scan_cycle releases the slot even though its center_freq is
non-zero, not locked out, and present in the estimated channels - the
claim as stated is false for this cycle. -/
theorem c1_counterexample :
    (200000 : ℤ) ∈ getRawChannels [3] 4 800000 0 5000 ∧
    lockedOutBB [] 200000 = false ∧
    (200000 : ℤ) ≠ 0 ∧
    (0, (0 : ℤ)) ∈ (scanCycle [] [] [3] 4 800000 0 5000
        [⟨200000, 10, 0⟩] 10 10 1 1).2 := by
  refine ⟨by rw [getRawChannels_demo]; exact List.mem_singleton.mpr rfl,
    by decide, by decide, ?_⟩
  simp only [scanCycle]
  rw [getRawChannels_demo]
  apply List.mem_append.mpr
  left
  simp [processDemod_demo, releaseCallsFrom]

/-- C4 (amended): for a range wider than an even sample rate, step
generation produces exactly n = floor((hi - sr - lo)/sr) + 2 centers
c_k = lo + sr/2 + k * Delta with Delta = floor((hi - sr - lo)/(n - 1));
the first center minus sr/2 equals lo exactly, and the last center plus
sr/2 equals hi minus the division remainder (hi - sr - lo) mod (n - 1),
which lies between 0 and n - 2.  The even-sample-rate restriction is the
amendment: the source computes the usable span as hi - lo - 2*int(sr/2),
which differs from hi - sr - lo when sr is odd. -/
theorem c4_range_steps (lower_freq upper_freq sample_rate : ℤ)
    (hsr : 0 < sample_rate) (heven : sample_rate % 2 = 0)
    (hwide : sample_rate < upper_freq - lower_freq) :
    (stepsForRange sample_rate lower_freq upper_freq).length
        = specStepCount lower_freq upper_freq sample_rate ∧
    (∀ k : ℕ, k < specStepCount lower_freq upper_freq sample_rate →
      (stepsForRange sample_rate lower_freq upper_freq).getD k 0
        = lower_freq + sample_rate / 2
            + k * specStepDelta lower_freq upper_freq sample_rate) ∧
    (stepsForRange sample_rate lower_freq upper_freq).getD 0 0
        - sample_rate / 2 = lower_freq ∧
    (stepsForRange sample_rate lower_freq upper_freq).getD
        (specStepCount lower_freq upper_freq sample_rate - 1) 0
        + sample_rate / 2
      = upper_freq - (upper_freq - sample_rate - lower_freq) %
          ((specStepCount lower_freq upper_freq sample_rate : ℤ) - 1) ∧
    0 ≤ (upper_freq - sample_rate - lower_freq) %
          ((specStepCount lower_freq upper_freq sample_rate : ℤ) - 1) ∧
    (upper_freq - sample_rate - lower_freq) %
          ((specStepCount lower_freq upper_freq sample_rate : ℤ) - 1)
      ≤ (specStepCount lower_freq upper_freq sample_rate : ℤ) - 2 := by
  have hdvd : (2 : ℤ) ∣ sample_rate := Int.dvd_of_emod_eq_zero heven
  have h2 : sample_rate / 2 * 2 = sample_rate := Int.ediv_mul_cancel hdvd
  have hED : upper_freq - sample_rate / 2 - (lower_freq + sample_rate / 2)
      = upper_freq - sample_rate - lower_freq := by omega
  have hDpos : 0 < upper_freq - sample_rate - lower_freq := by omega
  have hq0 : 0 ≤ (upper_freq - sample_rate - lower_freq) / sample_rate :=
    Int.ediv_nonneg hDpos.le hsr.le
  have hnot : ¬ (upper_freq - lower_freq ≤ sample_rate) := by omega
  have hmoves : ((upper_freq - sample_rate - lower_freq) / sample_rate + 2).toNat
      = specStepCount lower_freq upper_freq sample_rate := by
    rw [specStepCount, Int.toNat_add hq0 (by norm_num)]
    rfl
  have hn1 : ((specStepCount lower_freq upper_freq sample_rate : ℤ) - 1)
      = (upper_freq - sample_rate - lower_freq) / sample_rate + 1 := by
    rw [specStepCount]
    push_cast [Int.toNat_of_nonneg hq0]
    ring
  have hn2 : 2 ≤ specStepCount lower_freq upper_freq sample_rate := by
    rw [specStepCount]
    omega
  have hdelta : specStepDelta lower_freq upper_freq sample_rate
      = (upper_freq - sample_rate - lower_freq) /
          ((upper_freq - sample_rate - lower_freq) / sample_rate + 1) := by
    rw [specStepDelta, hn1]
  have hsteps : stepsForRange sample_rate lower_freq upper_freq
      = rangeCenters (lower_freq + sample_rate / 2)
          (specStepDelta lower_freq upper_freq sample_rate)
          (specStepCount lower_freq upper_freq sample_rate) := by
    simp only [stepsForRange, if_neg hnot]
    rw [hED, hmoves, hdelta, hn1]
  have hlen : (stepsForRange sample_rate lower_freq upper_freq).length
      = specStepCount lower_freq upper_freq sample_rate := by
    rw [hsteps, rangeCenters_length]
  have helts : ∀ k : ℕ, k < specStepCount lower_freq upper_freq sample_rate →
      (stepsForRange sample_rate lower_freq upper_freq).getD k 0
        = lower_freq + sample_rate / 2
            + k * specStepDelta lower_freq upper_freq sample_rate := by
    intro k hk
    rw [hsteps, rangeCenters_getD _ _ _ _ hk]
  have hpos1 : 0 < (upper_freq - sample_rate - lower_freq) / sample_rate + 1 := by
    omega
  have heuclid := Int.ediv_add_emod (upper_freq - sample_rate - lower_freq)
    ((upper_freq - sample_rate - lower_freq) / sample_rate + 1)
  have hmod0 : 0 ≤ (upper_freq - sample_rate - lower_freq) %
      ((upper_freq - sample_rate - lower_freq) / sample_rate + 1) :=
    Int.emod_nonneg _ (by omega)
  have hmodlt : (upper_freq - sample_rate - lower_freq) %
      ((upper_freq - sample_rate - lower_freq) / sample_rate + 1)
      < (upper_freq - sample_rate - lower_freq) / sample_rate + 1 :=
    Int.emod_lt_of_pos _ hpos1
  refine ⟨hlen, helts, ?_, ?_, ?_, ?_⟩
  · rw [helts 0 (by omega)]
    push_cast
    ring
  · rw [helts (specStepCount lower_freq upper_freq sample_rate - 1) (by omega)]
    have hcast : ((specStepCount lower_freq upper_freq sample_rate - 1 : ℕ) : ℤ)
        = (upper_freq - sample_rate - lower_freq) / sample_rate + 1 := by
      rw [← hn1]
      push_cast [Nat.cast_sub (by omega : 1 ≤ specStepCount lower_freq upper_freq sample_rate)]
      ring
    rw [hcast, hdelta, hn1]
    linarith [heuclid, h2]
  · rw [hn1]
    exact hmod0
  · rw [hn1]
    omega

/-- C4 counterexample: for the range 0..9 with the odd sample rate 5
(hi - lo = 9 > 5), the source produces 3 centers while the claimed
formula floor((hi - sr - lo)/sr) + 2 gives 2. -/
theorem c4_counterexample :
    (stepsForRange 5 0 9).length ≠ specStepCount 0 9 5 := by decide

/-- C4 witness: the amended theorem applied to the range 0..10 with the
even sample rate 4. -/
theorem c4_witness :
    (stepsForRange 4 0 10).length = specStepCount 0 10 4 ∧
    (stepsForRange 4 0 10).getD 0 0 - 4 / 2 = 0 :=
  ⟨(c4_range_steps 0 10 4 (by decide) (by decide) (by decide)).1,
   (c4_range_steps 0 10 4 (by decide) (by decide) (by decide)).2.2.1⟩

/-- C10: with at least one single or range configured (and a positive
sample rate), the step list is non-empty; the freshly initialized
provider satisfies the invariant 0 <= step < len(steps) with
center_freq = steps[step]; a step advance preserves the invariant; and
an advance from the last step wraps the index to 0. -/
theorem c10_provider_invariant (singles : List ℤ) (ranges : List (ℤ × ℤ))
    (sample_rate : ℤ) (hsr : 0 < sample_rate)
    (hne : singles ≠ [] ∨ ranges ≠ []) :
    getSteps singles ranges sample_rate ≠ [] ∧
    providerInv (FrequencyProvider.init singles ranges sample_rate) ∧
    (∀ p : FrequencyProvider, providerInv p → providerInv p.advance) ∧
    (∀ p : FrequencyProvider, providerInv p →
      p.step = p.steps.length - 1 → p.advance.step = 0) := by
  have hsteps := getSteps_ne_nil singles ranges sample_rate hsr hne
  refine ⟨hsteps, ⟨?_, rfl⟩, ?_, ?_⟩
  · exact List.length_pos.mpr hsteps
  · rintro p ⟨h1, _⟩
    refine ⟨?_, rfl⟩
    simp only [FrequencyProvider.advance]
    split_ifs with h
    · omega
    · omega
  · rintro p ⟨h1, _⟩ hlast
    simp [FrequencyProvider.advance, hlast]

/-- C10 witness: the theorem applied to one configured single. -/
theorem c10_witness :
    getSteps [100] [] 1 ≠ [] ∧
    providerInv (FrequencyProvider.init [100] [] 1) :=
  ⟨(c10_provider_invariant [100] [] 1 (by decide) (Or.inl (by decide))).1,
   (c10_provider_invariant [100] [] 1 (by decide) (Or.inl (by decide))).2.1⟩

/-- C9 (amended): a fixed-field record is the timestamp, a colon-space
separator, then the state left-justified (padded on the right with
spaces) to 4 columns, the frequency rendering left-justified to 10 and
the channel rendering left-justified to 2, terminated by a newline, when
the renderings fit their columns.  Left-justification is the amendment:
the claim said the fields are left-padded (right-justified), but the
source format specifications use the left-align flag. -/
theorem c9_fixed_field_layout (timestamp state freq chan : String)
    (hst : state = "on" ∨ state = "off" ∨ state = "act")
    (hfr : freq.length ≤ 10) (hch : chan.length ≤ 2) :
    fixedFieldRecord timestamp state freq chan
      = timestamp ++ ": " ++ (state ++ spacesStr (4 - state.length)) ++
        (freq ++ spacesStr (10 - freq.length)) ++
        (chan ++ spacesStr (2 - chan.length)) ++ "\n" ∧
    (state ++ spacesStr (4 - state.length)).length = 4 ∧
    (freq ++ spacesStr (10 - freq.length)).length = 10 ∧
    (chan ++ spacesStr (2 - chan.length)).length = 2 := by
  have hstlen : state.length ≤ 4 := by
    rcases hst with h | h | h <;> subst h <;> decide
  refine ⟨?_, ?_, ?_, ?_⟩
  · rw [fixedFieldRecord, pyLJust_pad state 4 hstlen, pyLJust_pad freq 10 hfr,
      pyLJust_pad chan 2 hch]
  · rw [String.length_append, spacesStr_length]
    omega
  · rw [String.length_append, spacesStr_length]
    omega
  · rw [String.length_append, spacesStr_length]
    omega

/-- C9 witness: the amended theorem applied to a concrete record. -/
theorem c9_witness :
    fixedFieldRecord "2024-01-02, 03:04:05.678901" "on" "146.12" "0"
      = "2024-01-02, 03:04:05.678901" ++ ": " ++
        ("on" ++ spacesStr (4 - "on".length)) ++
        ("146.12" ++ spacesStr (10 - "146.12".length)) ++
        ("0" ++ spacesStr (2 - "0".length)) ++ "\n" ∧
    ("on" ++ spacesStr (4 - "on".length)).length = 4 ∧
    ("146.12" ++ spacesStr (10 - "146.12".length)).length = 10 ∧
    ("0" ++ spacesStr (2 - "0".length)).length = 2 :=
  c9_fixed_field_layout "2024-01-02, 03:04:05.678901" "on" "146.12" "0"
    (Or.inl rfl) (by decide) (by decide)

/-- C9 counterexample: the record for an `on` event does not match the
left-padded (right-justified) field layout the claim describes - the
source left-justifies each field. -/
theorem c9_counterexample :
    fixedFieldRecord "2024-01-02, 03:04:05.678901" "on" "146.12" "0"
      ≠ "2024-01-02, 03:04:05.678901" ++ ": " ++ pyRJust "on" 4 ++
        pyRJust "146.12" 10 ++ pyRJust "0" 2 ++ "\n" := by decide

/-- C6: after set_center(h), the entry at every position has its derived
baseband fields recomputed as round((rf * 1e6 - h)/spacing) * spacing
from its radio frequencies - bb_single for a single entry, bb_lo and
bb_hi for a range entry. -/
theorem c6_set_center_baseband (m : FrequencyManager) (h : ℤ) (i : ℕ)
    (e : ConfigFrequency) (he : m.frequencies.get? i = some e) :
    ∃ e', (m.set_center h).frequencies.get? i = some e' ∧
      (e.is_single = true →
        e'.bb_single = some (pyRound ((e.single.getD 0 * 1000000 - (h : ℚ)) /
          (m.channel_spacing : ℚ)) * m.channel_spacing)) ∧
      (e.is_single = false →
        e'.bb_lo = some (pyRound ((e.lo.getD 0 * 1000000 - (h : ℚ)) /
          (m.channel_spacing : ℚ)) * m.channel_spacing) ∧
        e'.bb_hi = some (pyRound ((e.hi.getD 0 * 1000000 - (h : ℚ)) /
          (m.channel_spacing : ℚ)) * m.channel_spacing)) := by
  refine ⟨e.calculate_baseband h m.channel_spacing, ?_, ?_, ?_⟩
  · rw [FrequencyManager.set_center]
    simp only [List.get?_map, he, Option.map_some']
  · intro hs
    rw [ConfigFrequency.calculate_baseband, if_pos (by rw [hs])]
    simp [frequency_to_baseband]
  · intro hs
    rw [ConfigFrequency.calculate_baseband, if_neg (by rw [hs]; exact Bool.false_ne_true)]
    simp [frequency_to_baseband]

/-- A registry holding one configured single at 450 MHz, for the C6
witness. -/
def demoSingleManager : FrequencyManager :=
  ⟨5000, none, ⟨false, false⟩,
   [⟨none, false, none, some 450, none, none, none, none, none, true, true⟩]⟩

/-- C6 witness: the theorem applied to the concrete registry. -/
theorem c6_witness :
    ∃ e', (demoSingleManager.set_center 0).frequencies.get? 0 = some e' ∧
      ((⟨none, false, none, some 450, none, none, none, none, none, true, true⟩ :
          ConfigFrequency).is_single = true →
        e'.bb_single = some (pyRound ((((⟨none, false, none, some 450, none, none,
            none, none, none, true, true⟩ : ConfigFrequency).single.getD 0)
            * 1000000 - ((0 : ℤ) : ℚ)) /
          ((demoSingleManager.channel_spacing : ℤ) : ℚ)) *
            demoSingleManager.channel_spacing)) ∧
      ((⟨none, false, none, some 450, none, none, none, none, none, true, true⟩ :
          ConfigFrequency).is_single = false →
        e'.bb_lo = some (pyRound ((((⟨none, false, none, some 450, none, none,
            none, none, none, true, true⟩ : ConfigFrequency).lo.getD 0)
            * 1000000 - ((0 : ℤ) : ℚ)) /
          ((demoSingleManager.channel_spacing : ℤ) : ℚ)) *
            demoSingleManager.channel_spacing) ∧
        e'.bb_hi = some (pyRound ((((⟨none, false, none, some 450, none, none,
            none, none, none, true, true⟩ : ConfigFrequency).hi.getD 0)
            * 1000000 - ((0 : ℤ) : ℚ)) /
          ((demoSingleManager.channel_spacing : ℤ) : ℚ)) *
            demoSingleManager.channel_spacing)) :=
  c6_set_center_baseband demoSingleManager 0 0
    ⟨none, false, none, some 450, none, none, none, none, none, true, true⟩ rfl

/-- C8: every baseband channel the estimation step returns is non-zero,
is spacing-quantized in RF-relative space (bb + center is a multiple of
the channel spacing), and arises from some estimator bin b as
round((bb0 + center)/spacing) * spacing - center for the raw offset
bb0 = (b - L/2) * sample_rate / L; channels that quantize to 0 are
dropped. -/
theorem c8_raw_channels_quantized (bins : List ℚ) (specLen : ℕ)
    (samp_rate : ℚ) (center_freq channel_spacing : ℤ) :
    ∀ bb ∈ getRawChannels bins specLen samp_rate center_freq channel_spacing,
      bb ≠ 0 ∧ channel_spacing ∣ (bb + center_freq) ∧
      ∃ b ∈ bins,
        bb = pyRound (((b - (specLen : ℚ) / 2) * samp_rate / (specLen : ℚ)
            + (center_freq : ℚ)) / (channel_spacing : ℚ)) * channel_spacing
          - center_freq := by
  intro bb hbb
  rw [getRawChannels] at hbb
  obtain ⟨hmem, hne⟩ := List.mem_filter.mp hbb
  obtain ⟨b, hb, hquant⟩ := List.mem_map.mp hmem
  refine ⟨by simpa using hne, ?_, ⟨b, hb, ?_⟩⟩
  · refine ⟨pyRound ((rawOffset specLen samp_rate b + center_freq) /
      channel_spacing), ?_⟩
    rw [← hquant, quantizeChannel]
    ring
  · rw [← hquant, quantizeChannel, rawOffset]

/-- C8 witness: the theorem applied to a one-bin spectrum estimate. -/
theorem c8_witness :
    (200000 : ℤ) ∈ getRawChannels [3] 4 800000 0 5000 ∧
    ((200000 : ℤ) ≠ 0 ∧ (5000 : ℤ) ∣ ((200000 : ℤ) + 0) ∧
      ∃ b ∈ [(3 : ℚ)],
        (200000 : ℤ) = pyRound (((b - ((4 : ℕ) : ℚ) / 2) * 800000 / ((4 : ℕ) : ℚ)
            + ((0 : ℤ) : ℚ)) / ((5000 : ℤ) : ℚ)) * 5000 - 0) :=
  have hmem : (200000 : ℤ) ∈ getRawChannels [3] 4 800000 0 5000 := by
    rw [getRawChannels_demo]
    exact List.mem_singleton.mpr rfl
  ⟨hmem, c8_raw_channels_quantized [3] 4 800000 0 5000 200000 hmem⟩

/-- A single entry at 0.0 MHz carrying priority 5, as accepted by the
entry validation, for the C2 evaluation. -/
def c2single : ConfigFrequency :=
  ⟨none, false, some 5, some 0, none, none, none, none, none, false, true⟩

/-- A range entry 0.0-1.0 MHz carrying priority 2, for the C2
evaluation. -/
def c2range : ConfigFrequency :=
  ⟨none, false, some 2, none, some 0, some 1, none, none, none, false, false⟩

/-- The registry holding the two C2 entries before the center frequency
is set. -/
def c2base : FrequencyManager :=
  ⟨5000, none, ⟨false, false⟩, [c2single, c2range]⟩

/-- C2 evaluation at the failing input: after set_center(100000) the
single entry covers baseband -100000 with priority 5 and the range entry
covers it with priority 2, yet is_priority returns 2 - the truthiness
test `if frequency.single:` treats the 0.0 MHz single as a range, so the
single does not dominate as documented. -/
theorem c2_single_zero_priority_eval :
    ConfigFrequency.validEntry c2single = true ∧
    ConfigFrequency.validEntry c2range = true ∧
    (∃ e ∈ (c2base.set_center 100000).frequencies,
      e.is_single = true ∧ e.priority = some 5 ∧ e.bb_single = some (-100000)) ∧
    (c2base.set_center 100000).is_priority (-100000) = some 2 := by
  have hf0 : frequency_to_baseband 0 100000 5000 = -100000 := by
    rw [frequency_to_baseband]
    have h : ((0 : ℚ) * 1000000 - ((100000 : ℤ) : ℚ)) / ((5000 : ℤ) : ℚ)
        = ((-20 : ℤ) : ℚ) := by norm_num
    rw [h, pyRound_intCast]
    decide
  have hf1 : frequency_to_baseband 1 100000 5000 = 900000 := by
    rw [frequency_to_baseband]
    have h : ((1 : ℚ) * 1000000 - ((100000 : ℤ) : ℚ)) / ((5000 : ℤ) : ℚ)
        = ((180 : ℤ) : ℚ) := by norm_num
    rw [h, pyRound_intCast]
    decide
  have hset : (c2base.set_center 100000).frequencies
      = [⟨none, false, some 5, some 0, none, none, some (-100000), none, none,
          false, true⟩,
         ⟨none, false, some 2, none, some 0, some 1, none, some (-100000),
          some 900000, false, false⟩] := by
    simp [c2base, c2single, c2range, FrequencyManager.set_center,
      ConfigFrequency.calculate_baseband, hf0, hf1]
  refine ⟨by decide, by decide, ?_, ?_⟩
  · rw [hset]
    exact ⟨_, List.mem_cons_self _ _, rfl, rfl, rfl⟩
  · rw [FrequencyManager.is_priority, hset]
    decide

/-- A single entry at 0.0 MHz, as accepted by the entry validation, for
the C7 evaluation. -/
def c7entry : ConfigFrequency :=
  ⟨none, false, none, some 0, none, none, none, none, none, false, true⟩

/-- A registry already holding the C7 entry. -/
def c7manager : FrequencyManager := ⟨5000, none, ⟨false, false⟩, [c7entry]⟩

/-- C7 evaluation at the failing input: the registry already holds an
entry whose rf_single equals the new entry's rf_single, yet add appends a
duplicate instead of raising - `if self.single and other.single:` is
false for the falsy float 0.0, so __eq__ never compares the values. -/
theorem c7_duplicate_zero_single_eval :
    ConfigFrequency.validEntry c7entry = true ∧
    (∃ e ∈ c7manager.frequencies, e.single = c7entry.single ∧
      e.single.isSome = true) ∧
    c7manager.add c7entry
      = Except.ok ⟨5000, none, ⟨false, false⟩, [c7entry, c7entry]⟩ := by
  refine ⟨by decide, ⟨c7entry, List.mem_singleton.mpr rfl, rfl, rfl⟩, ?_⟩
  rfl
